import Mathlib

/-!
Shallow embedding of the xzip license-gated archiver.

Server side (authorization server, `part_000`): the in-memory key database
(`keyDatabase : map[string]*KeyInfo`), the validation engine `validateKey`,
and the aggregate `statsHandler`.  Time (`time.Time`) is modelled as `Int`;
Go's `t.After(u)` is the strict comparison `u < t` and `t.Before(u)` is
`t < u`.  Go `int` fields are modelled as `Int`.

Client side (`server.go`): the certificate identity check
`verifyServerCertificate`, the authorization gate `validateAuth`, the key
file bootstrap `initKeyFile`, the `main` dispatch, and the destination-path
computation of `extractFromZip` (`filepath.Join(target, file.Name)` with
Go's lexical `Clean`).
-/

/-- `KeyInfo` from the server source: metadata of one license key. -/
structure KeyInfo where
  valid : Bool
  createdAt : Int
  expiresAt : Int
  usageCount : Int
  maxUsage : Int
  deriving Repr, DecidableEq

/-- The in-memory key database `keyDatabase : map[string]*KeyInfo`,
modelled as an association list of entries (a Go map iterated by
`statsHandler` is exactly such a list of entries). -/
def Registry : Type := List (String × KeyInfo)

/-- Map lookup: first entry whose key matches. -/
def Registry.lookup : Registry → String → Option KeyInfo
  | [], _ => none
  | (k', v) :: tl, k => if k = k' then some v else Registry.lookup tl k

/-- In-place mutation through the `*KeyInfo` pointer: replace the record
stored under `k` (all entries with that key; in a map there is at most one). -/
def Registry.update (db : Registry) (k : String) (info : KeyInfo) : Registry :=
  db.map (fun p => if p.1 = k then (p.1, info) else p)

/-- `validateKey` from the server source, one atomic step (the Go function
holds `dbMutex.Lock()` for its whole body).  Returns the wire status
(`1` accept, `-1` reject) and the database after the call.  The checks are
in source order: existence, `Valid`, `time.Now().After(ExpiresAt)`
(strict), `UsageCount >= MaxUsage`; on success `UsageCount++`. -/
def validateKey (db : Registry) (now : Int) (key : String) : Int × Registry :=
  match db.lookup key with
  | none => (-1, db)
  | some keyInfo =>
    if !keyInfo.valid then (-1, db)
    else if keyInfo.expiresAt < now then (-1, db)
    else if keyInfo.maxUsage ≤ keyInfo.usageCount then (-1, db)
    else (1, db.update key { keyInfo with usageCount := keyInfo.usageCount + 1 })

/-- A sequence of validation calls on one key, each at its own time
(`times i` is the time of call `i`); `iterateValidate … n` is the database
after the first `n` calls. -/
def iterateValidate (db : Registry) (key : String) (times : Nat → Int) : Nat → Registry
  | 0 => db
  | n + 1 => (validateKey (iterateValidate db key times n) (times n) key).2

/-- A sequence of validation calls with arbitrary keys and times; returns
the final database. -/
def runValidations : Registry → List (Int × String) → Registry
  | db, [] => db
  | db, (now, k) :: rest => runValidations (validateKey db now k).2 rest

/-- A sequence of validation calls on one key, collecting every returned
status together with the final database. -/
def runCollect : Registry → String → List Int → List Int × Registry
  | db, _, [] => ([], db)
  | db, k, now :: rest =>
      let r := validateKey db now k
      let tail := runCollect r.2 k rest
      (r.1 :: tail.1, tail.2)

namespace Registry

theorem lookup_cons (k₀ k : String) (v₀ : KeyInfo) (tl : Registry) :
    Registry.lookup ((k₀, v₀) :: tl) k =
      if k = k₀ then some v₀ else Registry.lookup tl k := rfl

theorem update_cons (k₀ k : String) (v₀ v : KeyInfo) (tl : Registry) :
    Registry.update ((k₀, v₀) :: tl) k v =
      (if k₀ = k then (k₀, v) else (k₀, v₀)) :: Registry.update tl k v := rfl

theorem lookup_update_self (db : Registry) (k : String) (v : KeyInfo) :
    (db.update k v).lookup k = (db.lookup k).map (fun _ => v) := by
  induction db with
  | nil => rfl
  | cons hd tl ih =>
      obtain ⟨k₀, v₀⟩ := hd
      rw [update_cons, lookup_cons]
      by_cases h : k₀ = k
      · subst h
        rw [if_pos rfl, lookup_cons, if_pos rfl, if_pos rfl]
        rfl
      · have h' : ¬ k = k₀ := fun he => h he.symm
        rw [if_neg h, lookup_cons, if_neg h', if_neg h']
        exact ih

theorem lookup_update_ne (db : Registry) (k k' : String) (v : KeyInfo)
    (h : k ≠ k') : (db.update k' v).lookup k = db.lookup k := by
  induction db with
  | nil => rfl
  | cons hd tl ih =>
      obtain ⟨k₀, v₀⟩ := hd
      rw [update_cons, lookup_cons]
      by_cases h0 : k₀ = k'
      · subst h0
        have h1 : ¬ k = k₀ := h
        rw [if_pos rfl, lookup_cons, if_neg h1, if_neg h1]
        exact ih
      · rw [if_neg h0, lookup_cons]
        by_cases h1 : k = k₀
        · rw [if_pos h1, if_pos h1]
        · rw [if_neg h1, if_neg h1]
          exact ih

end Registry

/-- On the fully successful path `validateKey` returns status `1` and the
new database; spelled out once for reuse. -/
theorem validateKey_accept (db : Registry) (now : Int) (key : String)
    (r : KeyInfo) (hfound : db.lookup key = some r) (hvalid : r.valid = true)
    (hexp : ¬ r.expiresAt < now) (husage : ¬ r.maxUsage ≤ r.usageCount) :
    validateKey db now key =
      (1, db.update key { r with usageCount := r.usageCount + 1 }) := by
  simp [validateKey, hfound, hvalid, hexp, husage]

/-- Any record whose quota is already reached makes `validateKey` reject
and leave the database untouched, whichever check fires first. -/
theorem validateKey_reject_of_quota (db : Registry) (now : Int) (key : String)
    (r : KeyInfo) (hfound : db.lookup key = some r)
    (husage : r.maxUsage ≤ r.usageCount) :
    validateKey db now key = (-1, db) := by
  simp only [validateKey, hfound]
  by_cases hv : r.valid
  · by_cases he : r.expiresAt < now
    · simp [hv, he]
    · simp [hv, he, husage]
  · simp [hv]

/-- One validation call moves any stored record along at most one step:
either it is untouched, or it is the looked-up record, was under quota,
and its `usageCount` grew by exactly 1. -/
theorem validateKey_lookup_step (db : Registry) (now : Int) (key k : String)
    (r : KeyInfo) (h : db.lookup k = some r) :
    ∃ r', ((validateKey db now key).2).lookup k = some r' ∧
      (r' = r ∨ (r.usageCount < r.maxUsage ∧
        r' = { r with usageCount := r.usageCount + 1 })) := by
  cases hfound : db.lookup key with
  | none =>
      have h2 : validateKey db now key = (-1, db) := by
        simp [validateKey, hfound]
      exact ⟨r, by rw [h2]; exact h, Or.inl rfl⟩
  | some ri =>
      by_cases hv : ri.valid
      · by_cases he : ri.expiresAt < now
        · have h2 : validateKey db now key = (-1, db) := by
            simp [validateKey, hfound, hv, he]
          exact ⟨r, by rw [h2]; exact h, Or.inl rfl⟩
        · by_cases hu : ri.maxUsage ≤ ri.usageCount
          · have h2 := validateKey_reject_of_quota db now key ri hfound hu
            exact ⟨r, by rw [h2]; exact h, Or.inl rfl⟩
          · have h2 := validateKey_accept db now key ri hfound hv he hu
            by_cases hk : k = key
            · subst hk
              rw [h] at hfound
              obtain rfl : r = ri := Option.some.inj hfound
              refine ⟨{ r with usageCount := r.usageCount + 1 }, ?_,
                Or.inr ⟨lt_of_not_le hu, rfl⟩⟩
              rw [h2]
              simp [Registry.lookup_update_self, h]
            · refine ⟨r, ?_, Or.inl rfl⟩
              rw [h2]
              simpa [Registry.lookup_update_ne db k key _ hk] using h
      · have h2 : validateKey db now key = (-1, db) := by
          simp [validateKey, hfound, hv]
        exact ⟨r, by rw [h2]; exact h, Or.inl rfl⟩

/-- Across any sequence of validation calls, each stored record keeps its
`maxUsage` and its `usageCount` never decreases; if it starts within quota
it stays within quota. -/
theorem runValidations_lookup (calls : List (Int × String)) :
    ∀ (db : Registry) (k : String) (r : KeyInfo), db.lookup k = some r →
      ∃ r', (runValidations db calls).lookup k = some r' ∧
        r.usageCount ≤ r'.usageCount ∧ r'.maxUsage = r.maxUsage ∧
        (r.usageCount ≤ r.maxUsage → r'.usageCount ≤ r'.maxUsage) := by
  induction calls with
  | nil =>
      intro db k r h
      exact ⟨r, h, le_refl _, rfl, fun hb => hb⟩
  | cons c rest ih =>
      intro db k r h
      obtain ⟨now, key⟩ := c
      obtain ⟨r₁, h₁, hstep⟩ := validateKey_lookup_step db now key k r h
      obtain ⟨r', h', hmono, hmax, hbound⟩ := ih _ k r₁ h₁
      refine ⟨r', h', ?_, ?_, ?_⟩
      · rcases hstep with heq | ⟨_, heq⟩
        · rw [heq] at hmono; exact hmono
        · rw [heq] at hmono
          simp only at hmono
          exact le_trans (by omega) hmono
      · rcases hstep with heq | ⟨_, heq⟩
        · rw [heq] at hmax; exact hmax
        · rw [heq] at hmax; exact hmax
      · intro hb
        rcases hstep with heq | ⟨hlt, heq⟩
        · exact hbound (by rw [heq]; exact hb)
        · refine hbound ?_
          rw [heq]
          simp only
          omega

/-- C1: on a live record (found, enabled, strictly before expiry, under
quota) a single `validateKey` call returns wire status 1, stores the record
with `usageCount` increased by exactly 1, and leaves every other key's
record unchanged. -/
theorem validateKey_accept_increments (db : Registry) (now : Int)
    (key k' : String) (r : KeyInfo) (hfound : db.lookup key = some r)
    (hvalid : r.valid = true) (hexp : now < r.expiresAt)
    (husage : r.usageCount < r.maxUsage) (hne : k' ≠ key) :
    (validateKey db now key).1 = 1 ∧
    ((validateKey db now key).2).lookup key =
      some { r with usageCount := r.usageCount + 1 } ∧
    ((validateKey db now key).2).lookup k' = db.lookup k' := by
  have hexp' : ¬ r.expiresAt < now := not_lt.mpr (le_of_lt hexp)
  have husage' : ¬ r.maxUsage ≤ r.usageCount := not_le.mpr husage
  rw [validateKey_accept db now key r hfound hvalid hexp' husage']
  refine ⟨rfl, ?_, ?_⟩
  · simp [Registry.lookup_update_self, hfound]
  · exact Registry.lookup_update_ne db k' key _ hne

/-- C1 witness: a concrete one-record registry at time 5, key under quota. -/
theorem validateKey_accept_increments_witness :
    (validateKey [("k", ⟨true, 0, 100, 3, 10⟩)] 5 "k").1 = 1 ∧
    ((validateKey [("k", ⟨true, 0, 100, 3, 10⟩)] 5 "k").2).lookup "k" =
      some ⟨true, 0, 100, 4, 10⟩ ∧
    ((validateKey [("k", ⟨true, 0, 100, 3, 10⟩)] 5 "k").2).lookup "other" =
      Registry.lookup [("k", ⟨true, 0, 100, 3, 10⟩)] "other" :=
  validateKey_accept_increments [("k", ⟨true, 0, 100, 3, 10⟩)] 5 "k" "other"
    ⟨true, 0, 100, 3, 10⟩ (by decide) (by decide) (by decide) (by decide)
    (by decide)

/-- C2: across any sequence of validation calls a stored record's
`usageCount` never decreases and, starting within quota, never exceeds its
(unchanged) `maxUsage`; and a single call on any record whose `usageCount`
equals its `maxUsage` returns REJECT and leaves the database unchanged. -/
theorem usage_monotone_and_quota_rejection
    (db : Registry) (calls : List (Int × String)) (k : String) (r r' : KeyInfo)
    (dbq : Registry) (kq : String) (rq : KeyInfo) (now : Int)
    (h1 : db.lookup k = some r)
    (h2 : (runValidations db calls).lookup k = some r')
    (hb : r.usageCount ≤ r.maxUsage)
    (hq1 : dbq.lookup kq = some rq)
    (hq2 : rq.usageCount = rq.maxUsage) :
    r.usageCount ≤ r'.usageCount ∧ r'.maxUsage = r.maxUsage ∧
    r'.usageCount ≤ r'.maxUsage ∧ validateKey dbq now kq = (-1, dbq) := by
  obtain ⟨r'', h'', hmono, hmax, hbound⟩ := runValidations_lookup calls db k r h1
  rw [h2] at h''
  obtain rfl : r' = r'' := Option.some.inj h''
  exact ⟨hmono, hmax, hbound hb,
    validateKey_reject_of_quota dbq now kq rq hq1 (le_of_eq hq2.symm)⟩

/-- C2 witness: three calls on a quota-2 key drive `usageCount` from 0 to
2; a quota-reached record rejects unchanged. -/
theorem usage_monotone_and_quota_rejection_witness :
    (0 : Int) ≤ 2 ∧ (2 : Int) = 2 ∧ (2 : Int) ≤ 2 ∧
    validateKey [("q", ⟨true, 0, 50, 3, 3⟩)] 7 "q" =
      (-1, [("q", ⟨true, 0, 50, 3, 3⟩)]) :=
  usage_monotone_and_quota_rejection
    [("a", ⟨true, 0, 100, 0, 2⟩)] [(0, "a"), (0, "a"), (0, "a")] "a"
    ⟨true, 0, 100, 0, 2⟩ ⟨true, 0, 100, 2, 2⟩
    [("q", ⟨true, 0, 50, 3, 3⟩)] "q" ⟨true, 0, 50, 3, 3⟩ 7
    (by decide) (by decide) (by decide) (by decide) (by decide)

/-- C3 counterexample: at the exact instant `now = expiresAt` the claimed
premise "current time is at or after expiresAt" holds, yet `validateKey`
ACCEPTS (Go's `time.Now().After` is strict), so the claimed REJECT fails. -/
theorem expiry_boundary_counterexample :
    Registry.lookup [("k", ⟨true, 0, 100, 0, 5⟩)] "k" =
      some ⟨true, 0, 100, 0, 5⟩ ∧
    (⟨true, 0, 100, 0, 5⟩ : KeyInfo).expiresAt ≤ 100 ∧
    (validateKey [("k", ⟨true, 0, 100, 0, 5⟩)] 100 "k").1 = 1 := by
  decide

/-- C3 amended: for a stored record, if the current time is strictly after
`expiresAt` then validation returns REJECT and leaves the database
unchanged, even when the record is enabled and under quota. -/
theorem validateKey_reject_of_expired (db : Registry) (now : Int)
    (key : String) (r : KeyInfo) (hfound : db.lookup key = some r)
    (hexp : r.expiresAt < now) : validateKey db now key = (-1, db) := by
  simp only [validateKey, hfound]
  by_cases hv : r.valid
  · simp [hv, hexp]
  · simp [hv]

/-- C3 amended witness: an enabled, under-quota key one tick past expiry. -/
theorem validateKey_reject_of_expired_witness :
    validateKey [("k", ⟨true, 0, 100, 0, 5⟩)] 101 "k" =
      (-1, [("k", ⟨true, 0, 100, 0, 5⟩)]) :=
  validateKey_reject_of_expired [("k", ⟨true, 0, 100, 0, 5⟩)] 101 "k"
    ⟨true, 0, 100, 0, 5⟩ (by decide) (by decide)

/-- After `i ≤ maxUsage` validation calls on a fresh key (all at unexpired
times), the stored record is the original one with `usageCount = i`. -/
theorem iterateValidate_lookup (db : Registry) (key : String)
    (times : Nat → Int) (r : KeyInfo) (n : Nat)
    (hfound : db.lookup key = some r) (hvalid : r.valid = true)
    (husage : r.usageCount = 0) (hmax : r.maxUsage = (n : Int))
    (hunexp : ∀ i, times i ≤ r.expiresAt) :
    ∀ i, i ≤ n → (iterateValidate db key times i).lookup key =
      some { r with usageCount := (i : Int) } := by
  intro i
  induction i with
  | zero =>
      intro _
      have h0 : ({ r with usageCount := ((0 : Nat) : Int) } : KeyInfo) = r := by
        cases r
        simp_all
      rw [iterateValidate, h0]
      exact hfound
  | succ i ih =>
      intro hle
      have hl := ih (Nat.le_of_succ_le hle)
      have hlt : i < n := Nat.lt_of_succ_le hle
      have hacc := validateKey_accept (iterateValidate db key times i)
        (times i) key { r with usageCount := (i : Int) } hl hvalid
        (not_lt.mpr (hunexp i))
        (by
          show ¬ r.maxUsage ≤ (i : Int)
          rw [hmax]
          exact not_le.mpr (by exact_mod_cast hlt))
      show ((validateKey (iterateValidate db key times i) (times i) key).2).lookup
        key = _
      rw [hacc, Registry.lookup_update_self, hl]
      have hcast : (((i + 1 : Nat)) : Int) = (i : Int) + 1 := by push_cast; ring
      rw [hcast]
      rfl

/-- C4: on a fresh record (enabled, `usageCount = 0`, `maxUsage = n`) whose
key stays unexpired at every call time, each of the first `n` validation
calls returns ACCEPT and the `(n+1)`-th returns REJECT. -/
theorem quota_boundary (db : Registry) (key : String) (times : Nat → Int)
    (r : KeyInfo) (n i : Nat)
    (hfound : db.lookup key = some r) (hvalid : r.valid = true)
    (husage : r.usageCount = 0) (hmax : r.maxUsage = (n : Int))
    (hunexp : ∀ j, times j ≤ r.expiresAt) (hi : i < n) :
    (validateKey (iterateValidate db key times i) (times i) key).1 = 1 ∧
    (validateKey (iterateValidate db key times n) (times n) key).1 = -1 := by
  have hl := iterateValidate_lookup db key times r n hfound hvalid husage
    hmax hunexp
  constructor
  · have hacc := validateKey_accept (iterateValidate db key times i)
      (times i) key { r with usageCount := (i : Int) } (hl i (le_of_lt hi))
      hvalid (not_lt.mpr (hunexp i))
      (by
        show ¬ r.maxUsage ≤ (i : Int)
        rw [hmax]
        exact not_le.mpr (by exact_mod_cast hi))
    rw [hacc]
  · have hrej := validateKey_reject_of_quota (iterateValidate db key times n)
      (times n) key { r with usageCount := (n : Int) } (hl n (le_refl n))
      (by
        show r.maxUsage ≤ (n : Int)
        rw [hmax])
    rw [hrej]

/-- C4 witness: quota 2 at fixed time 0 — second call accepts, third
rejects. -/
theorem quota_boundary_witness :
    (validateKey
      (iterateValidate [("k", ⟨true, 0, 100, 0, 2⟩)] "k" (fun _ => 0) 1)
      ((fun _ => (0 : Int)) 1) "k").1 = 1 ∧
    (validateKey
      (iterateValidate [("k", ⟨true, 0, 100, 0, 2⟩)] "k" (fun _ => 0) 2)
      ((fun _ => (0 : Int)) 2) "k").1 = -1 :=
  quota_boundary [("k", ⟨true, 0, 100, 0, 2⟩)] "k" (fun _ => 0)
    ⟨true, 0, 100, 0, 2⟩ 2 1 (by decide) (by decide) (by decide) (by decide)
    (fun _ => by show (0 : Int) ≤ (100 : Int); decide) (by decide)

theorem runCollect_cons (db : Registry) (k : String) (now : Int)
    (rest : List Int) :
    runCollect db k (now :: rest) =
      ((validateKey db now k).1 :: (runCollect (validateKey db now k).2 k rest).1,
       (runCollect (validateKey db now k).2 k rest).2) := rfl

/-- Once a record's quota is reached, every further call in a burst
returns `-1` and the database never changes again. -/
theorem runCollect_reject_all (times : List Int) :
    ∀ (db : Registry) (k : String) (r : KeyInfo), db.lookup k = some r →
      r.maxUsage ≤ r.usageCount →
      runCollect db k times = (times.map (fun _ => -1), db) := by
  induction times with
  | nil => intro db k r _ _; rfl
  | cons t rest ih =>
      intro db k r h hq
      have h2 := validateKey_reject_of_quota db t k r h hq
      rw [runCollect_cons]
      simp only [h2]
      rw [ih db k r h hq]
      rfl

/-- C6: validation calls on one key serialize (the source holds the write
lock `dbMutex` across the whole check-then-increment), so modelling each
call as an atomic step: for a fresh enabled key with `maxUsage = 1`, any
non-empty burst of calls at unexpired times yields exactly one ACCEPT, and
the stored `usageCount` ends at 1 — it never passes the ceiling. -/
theorem concurrent_single_accept (db : Registry) (key : String) (t : Int)
    (rest : List Int) (r : KeyInfo)
    (hfound : db.lookup key = some r) (hvalid : r.valid = true)
    (husage : r.usageCount = 0) (hmax : r.maxUsage = 1)
    (hunexp : ∀ u ∈ (t :: rest), u ≤ r.expiresAt) :
    ((runCollect db key (t :: rest)).1).count 1 = 1 ∧
    ((runCollect db key (t :: rest)).2).lookup key =
      some { r with usageCount := 1 } := by
  have hexp : ¬ r.expiresAt < t :=
    not_lt.mpr (hunexp t (List.mem_cons_self t rest))
  have husage' : ¬ r.maxUsage ≤ r.usageCount := by
    rw [husage, hmax]; norm_num
  have hacc := validateKey_accept db t key r hfound hvalid hexp husage'
  have hone : r.usageCount + 1 = 1 := by omega
  have hl1 : (db.update key { r with usageCount := r.usageCount + 1 }).lookup
      key = some { r with usageCount := 1 } := by
    rw [Registry.lookup_update_self, hfound]
    show some ({ r with usageCount := r.usageCount + 1 } : KeyInfo) = _
    rw [hone]
  have hq : ({ r with usageCount := 1 } : KeyInfo).maxUsage ≤
      ({ r with usageCount := 1 } : KeyInfo).usageCount := by
    show r.maxUsage ≤ (1 : Int)
    rw [hmax]
  have hrest := runCollect_reject_all rest
    (db.update key { r with usageCount := r.usageCount + 1 }) key
    { r with usageCount := 1 } hl1 hq
  rw [runCollect_cons]
  simp only [hacc, hrest]
  constructor
  · have hzero : (rest.map (fun _ => (-1 : Int))).count 1 = 0 := by
      rw [List.count_eq_zero]
      intro hmem
      rw [List.mem_map] at hmem
      obtain ⟨a, _, ha⟩ := hmem
      norm_num at ha
    rw [List.count_cons_self, hzero]
  · exact hl1

/-- C6 witness: three calls on a fresh `maxUsage = 1` key — exactly one
ACCEPT, final `usageCount` is 1. -/
theorem concurrent_single_accept_witness :
    ((runCollect [("k", ⟨true, 0, 100, 0, 1⟩)] "k" (0 :: [0, 0])).1).count 1
      = 1 ∧
    ((runCollect [("k", ⟨true, 0, 100, 0, 1⟩)] "k" (0 :: [0, 0])).2).lookup "k"
      = some ⟨true, 0, 100, 1, 1⟩ :=
  concurrent_single_accept [("k", ⟨true, 0, 100, 0, 1⟩)] "k" 0 [0, 0]
    ⟨true, 0, 100, 0, 1⟩ (by decide) (by decide) (by decide) (by decide)
    (by decide)

/-- The aggregate record reported by `statsHandler`. -/
structure StatsResult where
  totalKeys : Nat
  validKeys : Nat
  totalUsage : Int
  deriving Repr, DecidableEq

/-- The accumulator loop of `statsHandler` over the database entries:
`validKeys` counts records that are enabled and whose expiry is still
strictly in the future (`keyInfo.Valid && time.Now().Before(ExpiresAt)`);
`totalUsage` sums every `UsageCount`. -/
def statsLoop (now : Int) : List (String × KeyInfo) → Nat → Int → Nat × Int
  | [], validKeys, totalUsage => (validKeys, totalUsage)
  | (_, info) :: rest, validKeys, totalUsage =>
      statsLoop now rest
        (if info.valid = true ∧ now < info.expiresAt then validKeys + 1
         else validKeys)
        (totalUsage + info.usageCount)

/-- `statsHandler` from the server source: `total_keys` is the map size,
`valid_keys` and `total_usage` come from the loop. -/
def statsHandler (db : Registry) (now : Int) : StatsResult :=
  let vu := statsLoop now db 0 0
  ⟨List.length db, vu.1, vu.2⟩

theorem statsLoop_cons (now : Int) (k : String) (info : KeyInfo)
    (rest : List (String × KeyInfo)) (v : Nat) (u : Int) :
    statsLoop now ((k, info) :: rest) v u =
      statsLoop now rest
        (if info.valid = true ∧ now < info.expiresAt then v + 1 else v)
        (u + info.usageCount) := rfl

/-- The stats loop computes, over any accumulators, the count of
valid-and-unexpired entries and the total of all usage counts. -/
theorem statsLoop_spec (now : Int) :
    ∀ (l : List (String × KeyInfo)) (v : Nat) (u : Int),
      statsLoop now l v u =
        (v + l.countP (fun p => decide (p.2.valid = true ∧ now < p.2.expiresAt)),
         u + (l.map (fun p => p.2.usageCount)).sum) := by
  intro l
  induction l with
  | nil =>
      intro v u
      simp [statsLoop]
  | cons hd rest ih =>
      intro v u
      obtain ⟨k, info⟩ := hd
      rw [statsLoop_cons, ih]
      by_cases h : info.valid = true ∧ now < info.expiresAt
      · simp only [if_pos h, List.countP_cons, List.map_cons, List.sum_cons,
          decide_eq_true h, if_true]
        rw [Prod.mk.injEq]
        exact ⟨by omega, by ring⟩
      · simp only [if_neg h, List.countP_cons, List.map_cons, List.sum_cons,
          decide_eq_false h, Bool.false_eq_true, if_false]
        rw [Prod.mk.injEq]
        exact ⟨by omega, by ring⟩

/-- C9: for every database and call time, `statsHandler` reports
`total_keys` equal to the number of records, `valid_keys` equal to the
number of records that are enabled and not yet expired, and `total_usage`
equal to the sum of every record's `usageCount`. -/
theorem statsHandler_spec (db : Registry) (now : Int) :
    (statsHandler db now).totalKeys = List.length db ∧
    (statsHandler db now).validKeys =
      List.countP (fun p => decide (p.2.valid = true ∧ now < p.2.expiresAt)) db ∧
    (statsHandler db now).totalUsage =
      (List.map (fun p => p.2.usageCount) db).sum := by
  refine ⟨rfl, ?_, ?_⟩
  · show (statsLoop now db 0 0).1 = _
    rw [statsLoop_spec]
    simp
  · show (statsLoop now db 0 0).2 = _
    rw [statsLoop_spec]
    simp

/-- An X.509 certificate as the client check sees it: SAN DNS names and
subject Common Name. -/
structure Certificate where
  dnsNames : List String
  commonName : String
  deriving Repr, DecidableEq

/-- The TLS connection state attached to a response (`resp.TLS`): the
peer certificate chain presented by the server. -/
structure TLSState where
  peerCertificates : List Certificate
  deriving Repr, DecidableEq

/-- An authorization response as the client sees it: the TLS state
(`none` when the connection was not HTTPS) and the result of JSON-parsing
the body into `AuthResponse` (`none` when the body is malformed). -/
structure HTTPResponse where
  tls : Option TLSState
  parsedStatus : Option Int
  deriving Repr, DecidableEq

/-- Body of `verifyServerCertificate`'s loop: a certificate matches when
some SAN DNS name is `xzip.com` or the subject CN is `xzip.com`. -/
def certMatchesXzip (c : Certificate) : Bool :=
  c.dnsNames.contains "xzip.com" || c.commonName == "xzip.com"

/-- `verifyServerCertificate` from the client source: reject non-HTTPS
responses, then scan the peer certificates for the pinned identity. -/
def verifyServerCertificate (resp : HTTPResponse) : Except String Unit :=
  match resp.tls with
  | none => .error "connection is not HTTPS"
  | some t =>
      if t.peerCertificates.any certMatchesXzip then .ok ()
      else .error "server certificate domain verification failed"

/-- The environment the client interacts with: the key file under the
home directory (`none` = missing, `some s` = exists with contents `s`),
whether the directory/file creation steps of `initKeyFile` succeed, and
the outcome of the POST to the authorization endpoint (`none` = network
error). -/
structure ClientEnv where
  keyFile : Option String
  mkdirOk : Bool
  createOk : Bool
  response : Option HTTPResponse
  deriving Repr, DecidableEq

/-- `readAuthKey`: read the key file, trimming surrounding whitespace. -/
def readAuthKey (env : ClientEnv) : Except String String :=
  match env.keyFile with
  | none => .error "cannot read key file"
  | some data => .ok data.trim

/-- `validateAuth` from the client source: read the key, POST it, check
the certificate identity, parse the response, and accept only status 1;
every failure is returned as a descriptive error. -/
def validateAuth (env : ClientEnv) : Except String Unit :=
  match readAuthKey env with
  | .error e => .error ("authorization check failed: " ++ e)
  | .ok _key =>
      match env.response with
      | none => .error "network request failed"
      | some resp =>
          match verifyServerCertificate resp with
          | .error e => .error e
          | .ok _ =>
              match resp.parsedStatus with
              | none => .error "failed to parse response"
              | some status =>
                  if status = -1 then
                    .error "authorization rejected: purchase a key at xzip.com"
                  else if status ≠ 1 then
                    .error "abnormal authorization status"
                  else .ok ()

/-- `initKeyFile` from the client source: ensure the `.xzip` directory
exists; if the key file is missing, create it empty and return an error
telling the user to configure the key; an existing key file — even an
empty one — passes. -/
def initKeyFile (env : ClientEnv) : Except String Unit :=
  if env.mkdirOk = false then .error "failed to create directory"
  else
    match env.keyFile with
    | none =>
        if env.createOk = false then .error "failed to create key file"
        else .error "key file is empty, please configure the auth key first"
    | some _ => .ok ()

/-- What the client `main` ends up doing for a given environment and
argv (element 0 is the program name). -/
inductive MainAction where
  | initFailed
  | authFailed
  | usage
  | badArgs
  | runCompress (source target : String)
  | runExtract (source target : String)
  | unknownCommand
  deriving Repr, DecidableEq

/-- `main` from the client source: the init-key-file gate, then the
authorization gate, then command dispatch; the archive operations are
reached only after both gates return without error. -/
def mainClient (env : ClientEnv) (args : List String) : MainAction :=
  match initKeyFile env with
  | .error _ => .initFailed
  | .ok _ =>
      match validateAuth env with
      | .error _ => .authFailed
      | .ok _ =>
          if args.length < 2 then .usage
          else
            match args.get? 1 with
            | some "compress" =>
                if args.length < 4 then .badArgs
                else .runCompress (args.getD 2 "") (args.getD 3 "")
            | some "extract" =>
                if args.length < 4 then .badArgs
                else .runExtract (args.getD 2 "") (args.getD 3 "")
            | _ => .unknownCommand

/-- `validateAuth` succeeds exactly when every stage succeeds: the key
file was read, a response arrived, the pinned certificate identity
verified, the body parsed, and the parsed status is 1. -/
theorem validateAuth_ok_iff (env : ClientEnv) :
    validateAuth env = Except.ok () ↔
      (∃ k, readAuthKey env = Except.ok k) ∧
      ∃ resp, env.response = some resp ∧
        verifyServerCertificate resp = Except.ok () ∧
        resp.parsedStatus = some 1 := by
  unfold validateAuth
  cases hk : readAuthKey env with
  | error e => simp [hk]
  | ok key =>
      cases hr : env.response with
      | none => simp [hr]
      | some resp =>
          cases hv : verifyServerCertificate resp with
          | error e => simp [hk, hr, hv]
          | ok u =>
              cases u
              cases hp : resp.parsedStatus with
              | none => simp [hk, hr, hv, hp]
              | some status =>
                  by_cases h1 : status = -1
                  · subst h1
                    simp [hk, hr, hv, hp]
                  · by_cases h2 : status = 1
                    · subst h2
                      simp [hk, hr, hv, hp]
                    · simp [hk, hr, hv, hp, h1, h2]

theorem verifyServerCertificate_none (resp : HTTPResponse)
    (h : resp.tls = none) :
    verifyServerCertificate resp = Except.error "connection is not HTTPS" := by
  unfold verifyServerCertificate
  rw [h]

theorem verifyServerCertificate_some (resp : HTTPResponse) (t : TLSState)
    (h : resp.tls = some t) :
    verifyServerCertificate resp =
      (if t.peerCertificates.any certMatchesXzip then Except.ok ()
       else Except.error "server certificate domain verification failed") := by
  unfold verifyServerCertificate
  rw [h]

/-- C7: for EVERY response, the client's certificate identity check
accepts exactly when the response came over TLS and some presented peer
certificate carries DNS name `xzip.com` or Common Name `xzip.com`; and
whenever the check fails on the response an environment received,
`validateAuth` returns an error. -/
theorem certificate_identity_check (resp : HTTPResponse) (envF : ClientEnv)
    (respF : HTTPResponse) (hrespF : envF.response = some respF)
    (hfail : verifyServerCertificate respF ≠ Except.ok ()) :
    (verifyServerCertificate resp = Except.ok () ↔
      ∃ t, resp.tls = some t ∧ ∃ c ∈ t.peerCertificates,
        "xzip.com" ∈ c.dnsNames ∨ c.commonName = "xzip.com") ∧
    ∃ msg, validateAuth envF = Except.error msg := by
  constructor
  · constructor
    · intro hok
      cases htls : resp.tls with
      | none =>
          rw [verifyServerCertificate_none resp htls] at hok
          exact Except.noConfusion hok
      | some t =>
          rw [verifyServerCertificate_some resp t htls] at hok
          by_cases hany : t.peerCertificates.any certMatchesXzip = true
          · refine ⟨t, rfl, ?_⟩
            rw [List.any_eq_true] at hany
            obtain ⟨c, hc, hm⟩ := hany
            refine ⟨c, hc, ?_⟩
            unfold certMatchesXzip at hm
            rw [Bool.or_eq_true] at hm
            rcases hm with hdns | hcn
            · left
              simpa [List.contains, List.elem_iff] using hdns
            · right
              exact eq_of_beq hcn
          · rw [if_neg hany] at hok
            exact Except.noConfusion hok
    · rintro ⟨t, htls, c, hc, hm⟩
      rw [verifyServerCertificate_some resp t htls]
      have hmx : certMatchesXzip c = true := by
        unfold certMatchesXzip
        rw [Bool.or_eq_true]
        rcases hm with hdns | hcn
        · left
          simpa [List.contains, List.elem_iff] using hdns
        · right
          exact beq_iff_eq.mpr hcn
      rw [if_pos (List.any_eq_true.mpr ⟨c, hc, hmx⟩)]
  · cases hva : validateAuth envF with
    | error e => exact ⟨e, rfl⟩
    | ok u =>
        cases u
        obtain ⟨-, resp', hresp', hv', -⟩ := (validateAuth_ok_iff envF).mp hva
        rw [hrespF] at hresp'
        obtain rfl : respF = resp' := Option.some.inj hresp'
        exact absurd hv' hfail

/-- C7 witness: the iff instantiated at a succeeding TLS response that
presents the pinned `xzip.com` certificate, together with a failing
plain-HTTP scenario in which the gate reports an error. -/
theorem certificate_identity_check_witness :
    ((verifyServerCertificate ⟨some ⟨[⟨["xzip.com"], "srv"⟩]⟩, some 1⟩ =
        Except.ok ()) ↔
      ∃ t, (⟨some ⟨[⟨["xzip.com"], "srv"⟩]⟩, some 1⟩ : HTTPResponse).tls =
          some t ∧
        ∃ c ∈ t.peerCertificates,
          "xzip.com" ∈ c.dnsNames ∨ c.commonName = "xzip.com") ∧
    ∃ msg, validateAuth ⟨some "KEY", true, true, some ⟨none, some 1⟩⟩ =
      Except.error msg :=
  certificate_identity_check ⟨some ⟨[⟨["xzip.com"], "srv"⟩]⟩, some 1⟩
    ⟨some "KEY", true, true, some ⟨none, some 1⟩⟩ ⟨none, some 1⟩ rfl
    (fun h => Except.noConfusion h)

theorem mainClient_init_error (env : ClientEnv) (args : List String)
    (e : String) (h : initKeyFile env = Except.error e) :
    mainClient env args = MainAction.initFailed := by
  unfold mainClient
  rw [h]

theorem mainClient_auth_error (env : ClientEnv) (args : List String)
    (e : String) (hi : initKeyFile env = Except.ok ())
    (h : validateAuth env = Except.error e) :
    mainClient env args = MainAction.authFailed := by
  unfold mainClient
  rw [hi, h]

/-- `main` reaches an archive operation only when both the key-file gate
and the authorization gate returned without error. -/
theorem mainClient_run_requires (env : ClientEnv) (args : List String)
    (s t : String)
    (hrun : mainClient env args = MainAction.runCompress s t ∨
            mainClient env args = MainAction.runExtract s t) :
    initKeyFile env = Except.ok () ∧ validateAuth env = Except.ok () := by
  cases hi : initKeyFile env with
  | error e =>
      rw [mainClient_init_error env args e hi] at hrun
      rcases hrun with h | h <;> exact absurd h (by simp)
  | ok u =>
      cases u
      cases hv : validateAuth env with
      | error e =>
          rw [mainClient_auth_error env args e hi hv] at hrun
          rcases hrun with h | h <;> exact absurd h (by simp)
      | ok u =>
          cases u
          exact ⟨rfl, rfl⟩

/-- C8: the client performs a compress or extract only when the whole
authorization pipeline succeeded — key file read, a response received,
certificate identity verified, body parsed, status 1; and whenever
`validateAuth` does not succeed it returns a descriptive error and `main`
performs no archive operation (there is no retry path in `mainClient`). -/
theorem archive_gated_on_auth (env : ClientEnv) (args : List String)
    (s t : String) (envF : ClientEnv) (argsF : List String) (sF tF : String)
    (hrun : mainClient env args = MainAction.runCompress s t ∨
            mainClient env args = MainAction.runExtract s t)
    (hfail : validateAuth envF ≠ Except.ok ()) :
    initKeyFile env = Except.ok () ∧
    (∃ k, readAuthKey env = Except.ok k) ∧
    (∃ resp, env.response = some resp ∧
      verifyServerCertificate resp = Except.ok () ∧
      resp.parsedStatus = some 1) ∧
    (∃ msg, validateAuth envF = Except.error msg) ∧
    mainClient envF argsF ≠ MainAction.runCompress sF tF ∧
    mainClient envF argsF ≠ MainAction.runExtract sF tF := by
  obtain ⟨hi, hv⟩ := mainClient_run_requires env args s t hrun
  obtain ⟨hk, hpipe⟩ := (validateAuth_ok_iff env).mp hv
  refine ⟨hi, hk, hpipe, ?_, ?_, ?_⟩
  · cases hva : validateAuth envF with
    | error e => exact ⟨e, rfl⟩
    | ok u => cases u; exact absurd hva hfail
  · intro hC
    exact hfail (mainClient_run_requires envF argsF sF tF (Or.inl hC)).2
  · intro hE
    exact hfail (mainClient_run_requires envF argsF sF tF (Or.inr hE)).2

/-- A client environment in which every authorization stage succeeds. -/
def envAuthOk : ClientEnv :=
  ⟨some "KEY", true, true, some ⟨some ⟨[⟨["xzip.com"], "srv"⟩]⟩, some 1⟩⟩

/-- A client environment whose key file is missing and whose network is
down. -/
def envNoKey : ClientEnv := ⟨none, true, true, none⟩

/-- C8 witness: with a good key, certificate and status the client runs
`compress`; with a missing key file the gate errors and no archive
operation is reachable. -/
theorem archive_gated_on_auth_witness :
    initKeyFile envAuthOk = Except.ok () ∧
    (∃ k, readAuthKey envAuthOk = Except.ok k) ∧
    (∃ resp, envAuthOk.response = some resp ∧
      verifyServerCertificate resp = Except.ok () ∧
      resp.parsedStatus = some 1) ∧
    (∃ msg, validateAuth envNoKey = Except.error msg) ∧
    mainClient envNoKey ["xzip", "compress", "src", "out.zip"] ≠
      MainAction.runCompress "a" "b" ∧
    mainClient envNoKey ["xzip", "compress", "src", "out.zip"] ≠
      MainAction.runExtract "a" "b" :=
  archive_gated_on_auth envAuthOk ["xzip", "compress", "src", "out.zip"]
    "src" "out.zip" envNoKey ["xzip", "compress", "src", "out.zip"] "a" "b"
    (Or.inl (by decide)) (fun h => Except.noConfusion h)

/-- C10 counterexample: with an existing but empty key file the
initialization gate succeeds — the run is NOT terminated as a
configuration error with an instruction to populate the key file; instead
`main` proceeds to the remote authorization step (here failing with a
network error). -/
theorem empty_keyfile_counterexample :
    initKeyFile ⟨some "", true, true, none⟩ = Except.ok () ∧
    validateAuth ⟨some "", true, true, none⟩ =
      Except.error "network request failed" ∧
    mainClient ⟨some "", true, true, none⟩
      ["xzip", "extract", "a.zip", "out"] = MainAction.authFailed :=
  ⟨rfl, rfl, rfl⟩

/-- C10 amended: if the key file is MISSING (and the bootstrap filesystem
steps succeed), the client fails fatally as a configuration error — the
user is told to populate the just-created empty key file — and `main`
performs no authorization request and no archive work.  (An existing but
empty key file instead passes initialization and fails later at remote
authorization.) -/
theorem missing_keyfile_config_fatal (env : ClientEnv) (args : List String)
    (hmiss : env.keyFile = none) (hmk : env.mkdirOk = true)
    (hcr : env.createOk = true) :
    initKeyFile env =
      Except.error "key file is empty, please configure the auth key first" ∧
    mainClient env args = MainAction.initFailed := by
  have hi : initKeyFile env =
      Except.error "key file is empty, please configure the auth key first" := by
    unfold initKeyFile
    rw [hmk, hmiss, hcr]
    simp
  exact ⟨hi, mainClient_init_error env args _ hi⟩

/-- C10 amended witness: missing key file, argv asking for compress. -/
theorem missing_keyfile_config_fatal_witness :
    initKeyFile ⟨none, true, true, none⟩ =
      Except.error "key file is empty, please configure the auth key first" ∧
    mainClient ⟨none, true, true, none⟩ ["xzip", "compress", "a", "b"] =
      MainAction.initFailed :=
  missing_keyfile_config_fatal ⟨none, true, true, none⟩
    ["xzip", "compress", "a", "b"] rfl rfl rfl

/-- Element processing of Go `path.Clean` (Unix separators), over the
components of the path, accumulating the output in reverse: empty and `.`
components are dropped; `..` pops the previous component unless the output
is empty (then it is kept for a relative path, dropped for a rooted one)
or already ends in `..`; anything else is kept. -/
def cleanFold (rooted : Bool) : List String → List String → List String
  | acc, [] => acc
  | acc, c :: rest =>
      if c = "" ∨ c = "." then cleanFold rooted acc rest
      else if c = ".." then
        match acc with
        | [] =>
            if rooted then cleanFold rooted [] rest
            else cleanFold rooted [".."] rest
        | a :: acc' =>
            if a = ".." then cleanFold rooted (".." :: a :: acc') rest
            else cleanFold rooted acc' rest
      else cleanFold rooted (c :: acc) rest

/-- Split a path into its `/`-separated components (character-level
implementation of `strings.Split(p, "/")`, written over `String.data` so
that it evaluates by reduction). -/
def splitOnSlashAux : List Char → List Char → List (List Char)
  | [], cur => [cur.reverse]
  | c :: rest, cur =>
      if c = '/' then cur.reverse :: splitOnSlashAux rest []
      else splitOnSlashAux rest (c :: cur)

/-- The `/`-separated components of a path. -/
def splitOnSlash (s : String) : List String :=
  (splitOnSlashAux s.data []).map String.mk

/-- Join components with `/` separators. -/
def joinSlash : List String → String
  | [] => ""
  | [p] => p
  | p :: q :: rest => p ++ "/" ++ joinSlash (q :: rest)

/-- Whether a path is rooted (begins with `/`). -/
def isRooted (s : String) : Bool :=
  match s.data with
  | '/' :: _ => true
  | _ => false

/-- Go `filepath.Clean` on Unix, at the component level: split on `/`,
process the components, and reassemble (`/` for an emptied rooted path,
`.` for an emptied relative one). -/
def goClean (p : String) : String :=
  let rooted := isRooted p
  let comps := (cleanFold rooted [] (splitOnSlash p)).reverse
  let body := joinSlash comps
  if rooted then (if body = "" then "/" else "/" ++ body)
  else (if body = "" then "." else body)

/-- Go `filepath.Join(a, b)`: concatenate the non-empty parts with the
separator and `Clean` the result; `Join` of empties is `""`. -/
def filepathJoin (a b : String) : String :=
  if a = "" then (if b = "" then "" else goClean b)
  else if b = "" then goClean a
  else goClean (a ++ "/" ++ b)

/-- The destination `extractFromZip` writes an archive entry to:
`path := filepath.Join(target, file.Name)` — taken directly from the
source, with no containment check on the result before `MkdirAll` and
`OpenFile`. -/
def extractEntryDest (target name : String) : String :=
  filepathJoin target name

/-- Lexical containment test: `p` is the target itself or lies under
`target/`. -/
def staysWithin (target p : String) : Bool :=
  p == target || (target ++ "/").data.isPrefixOf p.data

/-- C5: there is an archive entry name — one with `..` path components —
whose computed destination path escapes the extraction target directory
(`zip-slip`): for target `output` the entry `../../etc/passwd` is written
to `../etc/passwd`, outside `output`. -/
theorem extract_zipslip_escape :
    ∃ name : String, ".." ∈ splitOnSlash name ∧
      extractEntryDest "output" name = "../etc/passwd" ∧
      staysWithin "output" (extractEntryDest "output" name) = false := by
  refine ⟨"../../etc/passwd", ?_, ?_, ?_⟩ <;> decide
